import Mathlib

/-!
Verification of the crlite `aggregate-crls` pipeline (Go sources: `types.go`
and the aggregate-crls `main.go`) against its natural-language specification.

The Go code is shallowly embedded: pure helpers become Lean functions,
external collaborators (file system, `crypto/sha256`, `net/url`,
`x509`, the storage backend) become explicit environment records whose
fields stand for the observations the Go code makes of them, and the
stateful worker loops become folds over explicit state.
-/

namespace Crlite

/-- A certificate serial number as produced by `storage.NewSerialFromBytes`:
the canonical byte string of the serial (`ent.SerialNumber.Bytes`). -/
structure Serial where
  bytes : List Nat
deriving DecidableEq

/-- Function `storage.NewSerialFromBytes` wraps the byte string. -/
def NewSerialFromBytes (b : List Nat) : Serial := ⟨b⟩

/-- The part of a parsed `pkix.CertificateList` that `processCRL` consumes:
the raw DER bytes of the signed body, `crl.TBSCertList.Raw`. -/
structure GoCRL where
  tbsRaw : List Nat
deriving DecidableEq

/-- An issuer certificate (`x509.Certificate`); opaque to this embedding,
only consulted through `CRLEnv.checkSig`. -/
structure Cert where
  id : String
deriving DecidableEq

/-- Observations `processCRL` makes of its external collaborators:
`ioutil.ReadFile`, `x509.ParseCRL`, `Certificate.CheckCRLSignature`,
`CertificateList.HasExpired(time.Now())` and `types.DecodeRawTBSCertList`
(the last returning the `SerialNumber.Bytes` of each revoked entry). -/
structure CRLEnv where
  read : String → Option (List Nat)
  parse : List Nat → Option GoCRL
  checkSig : Cert → GoCRL → Bool
  hasExpired : GoCRL → Bool
  decodeRaw : List Nat → Option (List (List Nat))

/-- The four error exits of `processCRL`. -/
inductive PCRLErr where
  | readErr | parseErr | sigErr | decodeErr
deriving DecidableEq

/-- The pair `([]storage.Serial, error)` returned by `processCRL`, together
with the warnings it logs (the expiry warning is the only one). -/
structure PCRLResult where
  serials : List Serial
  warnings : List String
  err : Option PCRLErr
deriving DecidableEq

/-- The expiry warning logged by `processCRL`. -/
def expiredWarning (aPath : String) : String :=
  "[" ++ aPath ++ "] CRL is expired, but proceeding anyway"

/-- Function `processCRL(aPath, aIssuerCert)`: read the file, parse it as a CRL,
check the CRL signature against the issuer certificate, warn (only) on
expiry, decode the raw revoked-certificate list, and return the serials.
The Go function pre-sizes its local `serials` slice to 16Ki; that capacity
affects no observable value, so the embedding keeps only the contents.
Every error return carries the still-empty `serials` slice. -/
def processCRL (env : CRLEnv) (aPath : String) (aIssuerCert : Cert) : PCRLResult :=
  match env.read aPath with
  | none => ⟨[], [], some .readErr⟩
  | some crlBytes =>
    match env.parse crlBytes with
    | none => ⟨[], [], some .parseErr⟩
    | some crl =>
      if env.checkSig aIssuerCert crl = false then
        ⟨[], [], some .sigErr⟩
      else
        let warnings := if env.hasExpired crl then [expiredWarning aPath] else []
        match env.decodeRaw crl.tbsRaw with
        | none => ⟨[], warnings, some .decodeErr⟩
        | some revokedList => ⟨revokedList.map NewSerialFromBytes, warnings, none⟩

/-- A Go slice: contents plus capacity.  Capacity is observable in
`aggregateCRLWorker` through its explicit `cap(serials)` check. -/
structure GoSlice (α : Type) where
  data : List α
  cap : Nat
deriving DecidableEq

/-- Go `make([]α, 0, c)`. -/
def goMake (α : Type) (c : Nat) : GoSlice α := ⟨[], c⟩

/-- Go's built-in `copy(dst, src)`: copies `min (len dst) (len src)`
elements into the front of `dst`; `dst`'s length and capacity are
unchanged. -/
def goCopy {α : Type} (dst src : GoSlice α) : GoSlice α :=
  let n := min dst.data.length src.data.length
  ⟨src.data.take n ++ dst.data.drop n, dst.cap⟩

/-- Go's built-in `append(s, xs...)`: contents are always `s.data ++ xs`;
if that fits in `s.cap` the capacity is kept, otherwise the runtime grows
the backing array to at least the needed length (the exact growth factor
is runtime-internal and unobservable here, so the embedding uses the
needed length). -/
def goAppend {α : Type} (s : GoSlice α) (xs : List α) : GoSlice α :=
  let data := s.data ++ xs
  ⟨data, if data.length ≤ s.cap then s.cap else data.length⟩

/-- The per-tuple mutable state of `aggregateCRLWorker`: the
`issuerEnrolled` flag, the number of `ae.issuers.Enroll` calls made (in
the Go code each call is guarded by `!issuerEnrolled`), the running
`serialCount`, and the `serials` accumulator slice. -/
structure AggState where
  issuerEnrolled : Bool
  enrollCalls : Nat
  serialCount : Nat
  serials : GoSlice Serial
deriving DecidableEq

/-- The state of `aggregateCRLWorker` at the top of a tuple:
`issuerEnrolled := false`, `serialCount := 0`,
`serials := make([]storage.Serial, 0, 128*1024)`. -/
def aggInit : AggState := ⟨false, 0, 0, goMake Serial (128 * 1024)⟩

/-- One iteration of the `for _, crlPath := range tuple.CrlPaths` loop of
`aggregateCRLWorker`: a `processCRL` error or an empty revoked list is a
`continue`; otherwise the issuer is enrolled (once), the accumulator is
regrown when its capacity would be exceeded (`newSerials` is made with
length 0, so Go's `copy(newSerials, serials)` copies nothing), the
revoked serials are appended, and `serialCount` is advanced. -/
def aggStep (env : CRLEnv) (cert : Cert) (st : AggState) (crlPath : String) : AggState :=
  let r := processCRL env crlPath cert
  match r.err with
  | some _ => st
  | none =>
    let revokedSerials := r.serials
    let revokedCount := revokedSerials.length
    if revokedCount = 0 then st
    else
      let st' :=
        if st.issuerEnrolled = false then
          { st with issuerEnrolled := true, enrollCalls := st.enrollCalls + 1 }
        else st
      let serials :=
        if st'.serials.cap < revokedCount + st'.serialCount then
          goCopy (goMake Serial (st'.serialCount + revokedCount)) st'.serials
        else st'.serials
      { st' with
          serials := goAppend serials revokedSerials
          serialCount := st'.serialCount + revokedCount }

/-- Processing of one `IssuerCrlPaths` tuple by `aggregateCRLWorker`:
fold `aggStep` over the tuple's CRL paths starting from `aggInit`. -/
def aggregateTuple (env : CRLEnv) (cert : Cert) (crlPaths : List String) : AggState :=
  crlPaths.foldl (aggStep env cert) aggInit

/-- The persistence decision at the bottom of `aggregateCRLWorker`'s tuple
loop: if the issuer was enrolled, `StoreKnownCertificateList` is called
with the issuer's identity and the accumulated serials; otherwise nothing
is stored for this issuer. -/
def aggWorkerOutput (env : CRLEnv) (cert : Cert) (issuerId : String)
    (crlPaths : List String) : Option (String × List Serial) :=
  let st := aggregateTuple env cert crlPaths
  if st.issuerEnrolled then some (issuerId, st.serials.data) else none

/-- Returns `true` when `processCRL` on this path succeeds with at least one
revoked serial — exactly the condition under which the path's iteration
of `aggregateCRLWorker` reaches the enrollment/append code. -/
def contributes (env : CRLEnv) (cert : Cert) (p : String) : Bool :=
  let r := processCRL env p cert
  r.err.isNone && !r.serials.isEmpty

/-- Constant `allowableAgeOfLocalCRL = time.ParseDuration("336h")`, in nanoseconds
(Go `time.Duration` is an integer count of nanoseconds). -/
def allowableAgeOfLocalCRL : Int := 336 * 3600 * 1000000000

/-- One URL iteration of `crlFetchWorker`, from `os.MkdirAll` to the
`paths = append(paths, finalPath)` decision.  The download, the
validation of the temp file and the rename only mutate the on-disk CRL
cache and emit logs; their observable effect on the path decision flows
entirely through `finalAge`, the age `GetSizeAndDateOfFile` reports for
the final path after the attempt (`none` when no final file exists).
`mkdirOk = false` is the `continue` after a failed `MkdirAll`;
a successful download of an issuer with no certificate hits
`glog.Fatalf`, which aborts the process (`none`). -/
def crlFetchStep (mkdirOk downloadOk certOk : Bool) (finalAge : Option Int)
    (paths : List String) (finalPath : String) : Option (List String) :=
  if mkdirOk = false then some paths
  else if downloadOk = true ∧ certOk = false then none
  else
    match finalAge with
    | none => some paths
    | some age =>
      if allowableAgeOfLocalCRL < age then some paths
      else some (paths ++ [finalPath])

/-- A Go `map[string]bool` of CRL URLs: lookup returns the stored value
and a presence bit, embedded as `Option Bool`. -/
abbrev CrlSet := String → Option Bool

/-- A Go `map[string]map[string]bool` (`types.IssuerCrlMap`). -/
abbrev IssuerCrlMap := String → Option CrlSet

/-- Go `make(map[string]bool)`. -/
def emptyCrlSet : CrlSet := fun _ => none

/-- Assignment `m[url] = v` on a `map[string]bool`. -/
def crlSetInsert (s : CrlSet) (url : String) (v : Bool) : CrlSet :=
  fun u => if u = url then some v else s u

/-- Method `IssuerCrlMap.Merge` from `types.go`: for each issuer of `other`,
take `self`'s set for that issuer (or a fresh empty one), set every key
of `other`'s set to `true` in it, and store it back in `self`.  The
result is the post-mutation value of `self`. -/
def Merge (self other : IssuerCrlMap) : IssuerCrlMap :=
  fun issuer =>
    match other issuer with
    | none => self issuer
    | some crls =>
      let selfCrls := match self issuer with
        | none => emptyCrlSet
        | some s => s
      some (fun crl => if (crls crl).isSome then some true else selfCrls crl)

/-- Key presence in an `IssuerCrlMap`. -/
def hasIssuer (m : IssuerCrlMap) (issuer : String) : Bool := (m issuer).isSome

/-- URL-set contents of an `IssuerCrlMap`: `url` is a key of `issuer`'s
set (the stored booleans are irrelevant; every consumer of the map ranges
over keys only). -/
def memUrl (m : IssuerCrlMap) (issuer url : String) : Bool :=
  match m issuer with
  | none => false
  | some s => (s url).isSome

/-- One issuer iteration of `findCrlWorker` (the discovery stage), state
effects only: take the worker's current set for the issuer (or a fresh
one), insert every URL of the issuer's indexed metadata (`meta.CRLs()`),
and store the set back under `issuer.ID()` — also when `crlSet` is empty,
in which case the code merely logs. -/
def findCrlStep (issuerCrls : IssuerCrlMap) (issuerId : String)
    (crlSet : List String) : IssuerCrlMap :=
  let crls := match issuerCrls issuerId with
    | some c => c
    | none => emptyCrlSet
  let crls := crlSet.foldl (fun c url => crlSetInsert c url true) crls
  fun i => if i = issuerId then some crls else issuerCrls i

/-- The fields of a `net/url.URL` that `aggregate-crls` reads:
`Hostname()`, `Path` and `String()`. -/
structure GoURL where
  hostname : String
  pathStr : String
  full : String
deriving DecidableEq

/-- Go's `path.Base`: `""` gives `"."`; otherwise strip trailing slashes,
keep everything after the last `/`, and give `"/"` when only slashes
remain. -/
def pathBase (p : String) : String :=
  if p = "" then "."
  else
    let cs := p.toList.reverse.dropWhile (fun c => c = '/')
    let base := cs.takeWhile (fun c => c ≠ '/')
    if base = [] then "/" else String.mk base.reverse

/-- Go `strings.ToLower` (ASCII case mapping; the characters this program
feeds it are host names and path segments). -/
def strToLower (s : String) : String := String.mk (s.toList.map Char.toLower)

/-- Membership in the character class of the `illegalPath` pattern's
complement: Go regexp `[[:alnum:]]` is ASCII alphanumeric, plus
`~`, `-`, `.`, `/`. -/
def legalChar (c : Char) : Bool :=
  c.isAlphanum || c = '~' || c = '-' || c = '.' || c = '/'

/-- Go `illegalPath.ReplaceAllString(s, "")`: delete every character outside
the legal class. -/
def stripIllegal (s : String) : String := String.mk (s.toList.filter legalChar)

/-- Go `strings.TrimSuffix(s, ".crl")`: drop one trailing `".crl"` if present. -/
def trimSuffixCrl (s : String) : String :=
  if s.toList.reverse.take 4 = ['l', 'r', 'c', '.'] then
    String.mk (s.toList.take (s.toList.length - 4))
  else s

/-- Lowercase hex digit of a nibble. -/
def hexDigit (n : Nat) : Char :=
  if n < 10 then Char.ofNat (48 + n) else Char.ofNat (97 + (n - 10))

/-- Go `hex.EncodeToString`: two lowercase hex digits per byte. -/
def hexEncode (bs : List Nat) : String :=
  String.mk ((bs.map (fun b => [hexDigit (b / 16 % 16), hexDigit (b % 16)])).flatten)

/-- Function `makeFilenameFromUrl`, parameterised by `sha256.Sum256` (given the
URL's `String()` form it returns the 32 digest bytes):
`fmt.Sprintf("%s-%s", Hostname(), path.Base(Path))`, lower-cased,
illegal characters stripped, one trailing `".crl"` trimmed, then
`fmt.Sprintf("%s-%s.crl", filename, hex(hash[:8]))`. -/
def makeFilenameFromUrl (sha256 : String → List Nat) (crlUrl : GoURL) : String :=
  let filename := crlUrl.hostname ++ "-" ++ pathBase crlUrl.pathStr
  let filename := strToLower filename
  let filename := stripIllegal filename
  let hash := sha256 crlUrl.full
  let filename := trimSuffixCrl filename
  filename ++ "-" ++ hexEncode (hash.take 8) ++ ".crl"

/-- The filename formula exactly as the claim states it: the lower-cased
concatenation of host and base path segment **with no separator between
them**, sanitized, trailing `".crl"` trimmed, then `-`, the first 8
digest bytes hex-encoded, and `".crl"`. -/
def claimedFilenameFromUrl (sha256 : String → List Nat) (crlUrl : GoURL) : String :=
  trimSuffixCrl (stripIllegal (strToLower (crlUrl.hostname ++ pathBase crlUrl.pathStr)))
    ++ "-" ++ hexEncode ((sha256 crlUrl.full).take 8) ++ ".crl"

/-- The amended filename formula: as the claim states it, except that the
lower-cased sanitized prefix is host, `-`, base path segment. -/
def amendedFilenameFromUrl (sha256 : String → List Nat) (crlUrl : GoURL) : String :=
  trimSuffixCrl (stripIllegal (strToLower (crlUrl.hostname ++ "-" ++ pathBase crlUrl.pathStr)))
    ++ "-" ++ hexEncode ((sha256 crlUrl.full).take 8) ++ ".crl"

/-- The `net/url` observations made by `downloadCRLs`:
`strings.TrimSpace` and `url.Parse`. -/
structure UrlEnv where
  trimSpace : String → String
  parseURL : String → Option GoURL

/-- The `urls` slice `downloadCRLs` builds for one issuer entry of the
merged `IssuerCrlMap`: each URL string trimmed, parsed, unparseable ones
skipped with a warning. -/
def parsedUrls (uenv : UrlEnv) (us : List String) : List GoURL :=
  us.filterMap (fun s => uenv.parseURL (uenv.trimSpace s))

/-- The work units `downloadCRLs` sends on `crlChan`: one
`IssuerCrlUrls` per issuer of the map, but only when `len(urls) > 0`.
The map iteration is embedded as a list of (issuer id, URL strings)
entries. -/
def downloadUnits (uenv : UrlEnv) (entries : List (String × List String)) :
    List (String × List GoURL) :=
  entries.filterMap (fun e =>
    if (parsedUrls uenv e.2).isEmpty then none else some (e.1, parsedUrls uenv e.2))

/-- The issuers the run enrolls: `Enroll` is called only inside
`aggregateCRLWorker` on tuples that originate from `downloadCRLs`'s work
units; each unit keeps its issuer identity through `crlFetchWorker`
(whose produced path list is abstracted by `pathsFor`) into the
aggregation stage, where the unit's issuer is enrolled exactly when its
tuple's `issuerEnrolled` flag ends up `true`. -/
def runEnrolled (uenv : UrlEnv) (cenv : CRLEnv) (certOf : String → Cert)
    (pathsFor : String → List GoURL → List String)
    (entries : List (String × List String)) : List String :=
  (downloadUnits uenv entries).filterMap (fun u =>
    if (aggregateTuple cenv (certOf u.1) (pathsFor u.1 u.2)).issuerEnrolled
    then some u.1 else none)

/-! ### Concrete environments used by witnesses and counterexamples -/

/-- A fixed issuer certificate for concrete runs. -/
def cert0 : Cert := ⟨"I"⟩

/-- Environment in which every file reads and parses but the CRL
signature check fails. -/
def envSig : CRLEnv :=
  { read := fun _ => some [7]
    parse := fun b => some ⟨b⟩
    checkSig := fun _ _ => false
    hasExpired := fun _ => false
    decodeRaw := fun _ => some [[1]] }

/-- Environment in which every file validates, is expired, and decodes
to three revoked serials. -/
def envOk : CRLEnv :=
  { read := fun _ => some [7]
    parse := fun b => some ⟨b⟩
    checkSig := fun _ _ => true
    hasExpired := fun _ => true
    decodeRaw := fun _ => some [[1], [2], [3]] }

/-- Environment in which no file can be read. -/
def envErr : CRLEnv :=
  { read := fun _ => none
    parse := fun b => some ⟨b⟩
    checkSig := fun _ _ => true
    hasExpired := fun _ => false
    decodeRaw := fun _ => some [[1]] }

/-- Environment realising the spec's end-to-end scenario: the file at
`"pa"` yields 3 revoked serials and the file at `"pb"` yields 1. -/
def envSmall : CRLEnv :=
  { read := fun p => if p = "pb" then some [1] else some [0]
    parse := fun b => some ⟨b⟩
    checkSig := fun _ _ => true
    hasExpired := fun _ => false
    decodeRaw := fun b => if b = [1] then some [[9]] else some [[1], [2], [3]] }

/-- Value `128 * 1024`, the initial capacity of `aggregateCRLWorker`'s
accumulator. -/
def bigN : Nat := 128 * 1024

/-- Environment in which the file at `"p1"` yields `bigN` revoked
serials (filling the accumulator's initial capacity exactly) and the
file at `"p2"` yields 1 more. -/
def envBig : CRLEnv :=
  { read := fun p => if p = "p2" then some [1] else some [0]
    parse := fun b => some ⟨b⟩
    checkSig := fun _ _ => true
    hasExpired := fun _ => false
    decodeRaw := fun b => if b = [1] then some [[1]] else some (List.replicate bigN [0]) }

/-- URL environment in which nothing parses as a URL. -/
def uenvNone : UrlEnv := ⟨fun s => s, fun _ => none⟩

/-! ### Helper lemmas about the aggregation worker -/

/-- A path on which `processCRL` fails is a `continue`: the worker state
is untouched. -/
theorem aggStep_of_err (env : CRLEnv) (cert : Cert) (st : AggState) (p : String)
    (e : PCRLErr) (h : (processCRL env p cert).err = some e) :
    aggStep env cert st p = st := by
  simp only [aggStep, h]

/-- A path whose `processCRL` succeeds with no serials is a `continue`. -/
theorem aggStep_of_empty (env : CRLEnv) (cert : Cert) (st : AggState) (p : String)
    (herr : (processCRL env p cert).err = none)
    (hs : (processCRL env p cert).serials = []) :
    aggStep env cert st p = st := by
  simp [aggStep, herr, hs]

/-- The enrollment flag after one step. -/
theorem aggStep_enrolled (env : CRLEnv) (cert : Cert) (st : AggState) (p : String) :
    (aggStep env cert st p).issuerEnrolled
      = (st.issuerEnrolled || contributes env cert p) := by
  rcases h : processCRL env p cert with ⟨s, w, e⟩
  cases e with
  | some e => simp [aggStep, contributes, h]
  | none =>
    cases s with
    | nil => simp [aggStep, contributes, h]
    | cons a as =>
      cases hst : st.issuerEnrolled <;>
        simp [aggStep, contributes, h, hst]

/-- The `Enroll`-call count after one step. -/
theorem aggStep_calls (env : CRLEnv) (cert : Cert) (st : AggState) (p : String) :
    (aggStep env cert st p).enrollCalls
      = st.enrollCalls + cond (!st.issuerEnrolled && contributes env cert p) 1 0 := by
  rcases h : processCRL env p cert with ⟨s, w, e⟩
  cases e with
  | some e => simp [aggStep, contributes, h]
  | none =>
    cases s with
    | nil => simp [aggStep, contributes, h]
    | cons a as =>
      cases hst : st.issuerEnrolled <;>
        simp [aggStep, contributes, h, hst]

/-- The enrollment flag after a whole tuple fold: the starting flag, or
some path contributes. -/
theorem aggFold_enrolled (env : CRLEnv) (cert : Cert) (ps : List String) :
    ∀ st : AggState,
      ((ps.foldl (aggStep env cert) st).issuerEnrolled)
        = (st.issuerEnrolled || ps.any (contributes env cert)) := by
  induction ps with
  | nil => intro st; simp
  | cons p ps ih =>
    intro st
    simp only [List.foldl_cons, List.any_cons]
    rw [ih, aggStep_enrolled, Bool.or_assoc]

/-- The `Enroll`-call count after a whole tuple fold. -/
theorem aggFold_calls (env : CRLEnv) (cert : Cert) (ps : List String) :
    ∀ st : AggState,
      ((ps.foldl (aggStep env cert) st).enrollCalls)
        = st.enrollCalls
          + cond (!st.issuerEnrolled && ps.any (contributes env cert)) 1 0 := by
  induction ps with
  | nil => intro st; simp
  | cons p ps ih =>
    intro st
    simp only [List.foldl_cons, List.any_cons]
    rw [ih, aggStep_calls, aggStep_enrolled]
    cases hst : st.issuerEnrolled <;> cases hc : contributes env cert p <;>
      cases ha : ps.any (contributes env cert) <;>
      simp [hst, hc, ha]

/-- The running `serialCount` after one step. -/
theorem aggStep_serialCount (env : CRLEnv) (cert : Cert) (st : AggState) (p : String) :
    (aggStep env cert st p).serialCount
      = st.serialCount
        + cond (contributes env cert p) (processCRL env p cert).serials.length 0 := by
  rcases h : processCRL env p cert with ⟨s, w, e⟩
  cases e with
  | some e => simp [aggStep, contributes, h]
  | none =>
    cases s with
    | nil => simp [aggStep, contributes, h]
    | cons a as =>
      cases hst : st.issuerEnrolled <;>
        simp [aggStep, contributes, h, hst]

/-- Unfolding of `contributes` into the two conditions the worker tests. -/
theorem contributes_iff (env : CRLEnv) (cert : Cert) (p : String) :
    contributes env cert p = true
      ↔ (processCRL env p cert).err = none ∧ (processCRL env p cert).serials ≠ [] := by
  rcases h : processCRL env p cert with ⟨s, w, e⟩
  cases e <;> cases s <;> simp [contributes, h]

/-! ### Claims -/

/-- C1. If the CRL at a path reads and parses but its signature does not
verify against the issuer certificate, `processCRL` returns the
signature error, and `aggregateCRLWorker`'s iteration for that path
leaves its whole per-issuer state (accumulator, count, enrollment)
untouched, so no serial from that file reaches the accumulator or the
persisted output. -/
theorem sigfail_never_aggregated (env : CRLEnv) (p : String) (cert : Cert)
    (b : List Nat) (crl : GoCRL)
    (h1 : env.read p = some b) (h2 : env.parse b = some crl)
    (h3 : env.checkSig cert crl = false) :
    (processCRL env p cert).err = some PCRLErr.sigErr
      ∧ ∀ st : AggState, aggStep env cert st p = st := by
  have hp : processCRL env p cert = ⟨[], [], some PCRLErr.sigErr⟩ := by
    simp [processCRL, h1, h2, h3]
  exact ⟨by rw [hp], fun st => aggStep_of_err env cert st p PCRLErr.sigErr (by rw [hp])⟩

/-- Witness for C1 at a concrete environment whose signature check fails. -/
theorem sigfail_never_aggregated_w :
    (processCRL envSig "p" cert0).err = some PCRLErr.sigErr
      ∧ aggStep envSig cert0 aggInit "p" = aggInit := by
  have h := sigfail_never_aggregated envSig "p" cert0 [7] ⟨[7]⟩ rfl rfl rfl
  exact ⟨h.1, h.2 aggInit⟩

/-- C9. A CRL that reads, parses, passes the signature check and decodes
is accepted by `processCRL` even when it is expired: the expiry produces
exactly the warning log line and no error, the decoded serials are
returned, and (when the list is nonempty) the aggregation step counts
them, i.e. the file still contributes. -/
theorem expired_crl_still_contributes (env : CRLEnv) (p : String) (cert : Cert)
    (b : List Nat) (crl : GoCRL) (L : List (List Nat))
    (h1 : env.read p = some b) (h2 : env.parse b = some crl)
    (h3 : env.checkSig cert crl = true) (h4 : env.hasExpired crl = true)
    (h5 : env.decodeRaw crl.tbsRaw = some L) :
    processCRL env p cert = ⟨L.map NewSerialFromBytes, [expiredWarning p], none⟩
      ∧ (L ≠ [] →
          contributes env cert p = true
            ∧ ∀ st : AggState,
                (aggStep env cert st p).serialCount = st.serialCount + L.length) := by
  have hp : processCRL env p cert = ⟨L.map NewSerialFromBytes, [expiredWarning p], none⟩ := by
    simp [processCRL, h1, h2, h3, h4, h5]
  refine ⟨hp, fun hL => ⟨?_, fun st => ?_⟩⟩
  · rw [contributes_iff, hp]
    simpa using hL
  · rw [aggStep_serialCount,
      (contributes_iff env cert p).mpr (by rw [hp]; simpa using hL), hp]
    simp

/-- Witness for C9 at a concrete environment with an expired CRL holding
three revoked serials. -/
theorem expired_crl_still_contributes_w :
    processCRL envOk "p" cert0
        = ⟨[[1], [2], [3]].map NewSerialFromBytes, [expiredWarning "p"], none⟩
      ∧ contributes envOk cert0 "p" = true
      ∧ (aggStep envOk cert0 aggInit "p").serialCount = aggInit.serialCount + 3 := by
  have h := expired_crl_still_contributes envOk "p" cert0 [7] ⟨[7]⟩ [[1], [2], [3]]
    rfl rfl rfl rfl rfl
  have h2 := h.2 (by simp)
  exact ⟨h.1, h2.1, h2.2 aggInit⟩

/-- C10. Whenever `processCRL` returns an error — read, parse, signature
or decode failure — the serial list returned alongside is empty. -/
theorem processCRL_error_empty_serials (env : CRLEnv) (p : String) (cert : Cert)
    (e : PCRLErr) (h : (processCRL env p cert).err = some e) :
    (processCRL env p cert).serials = [] := by
  cases hr : env.read p with
  | none => simp [processCRL, hr]
  | some b =>
    cases hp : env.parse b with
    | none => simp [processCRL, hr, hp]
    | some crl =>
      cases hs : env.checkSig cert crl with
      | false => simp [processCRL, hr, hp, hs]
      | true =>
        cases hd : env.decodeRaw crl.tbsRaw with
        | none => simp [processCRL, hr, hp, hs, hd]
        | some L => simp [processCRL, hr, hp, hs, hd] at h

/-- Witness for C10 at a concrete environment whose read fails. -/
theorem processCRL_error_empty_serials_w :
    (processCRL envErr "p" cert0).err = some PCRLErr.readErr
      ∧ (processCRL envErr "p" cert0).serials = [] :=
  ⟨rfl, processCRL_error_empty_serials envErr "p" cert0 PCRLErr.readErr rfl⟩

/-- C3. Over one issuer tuple, `Enroll` is called at most once; the final
enrollment flag is `true` exactly when some path's CRL validates with at
least one revoked serial (a validating CRL with zero serials does not
enroll); and the flag is monotone — once `true` it stays `true` through
every later step, including steps whose `processCRL` fails. -/
theorem enrollment_once_and_monotone (env : CRLEnv) (cert : Cert) (ps : List String) :
    (aggregateTuple env cert ps).enrollCalls ≤ 1
      ∧ ((aggregateTuple env cert ps).issuerEnrolled = true
          ↔ ∃ p ∈ ps, (processCRL env p cert).err = none
              ∧ (processCRL env p cert).serials ≠ [])
      ∧ ∀ (st : AggState) (p : String),
          st.issuerEnrolled = true → (aggStep env cert st p).issuerEnrolled = true := by
  refine ⟨?_, ?_, ?_⟩
  · rw [aggregateTuple, aggFold_calls]
    cases ps.any (contributes env cert) <;> simp [aggInit]
  · rw [aggregateTuple, aggFold_enrolled]
    simp only [aggInit, Bool.false_or, List.any_eq_true]
    constructor
    · rintro ⟨p, hmem, hc⟩
      exact ⟨p, hmem, (contributes_iff env cert p).mp hc⟩
    · rintro ⟨p, hmem, hc⟩
      exact ⟨p, hmem, (contributes_iff env cert p).mpr hc⟩
  · intro st p h
    rw [aggStep_enrolled, h, Bool.true_or]

/-- A worker state that is already enrolled, for the C3 witness. -/
def stEnrolled : AggState := ⟨true, 1, 0, goMake Serial 0⟩

/-- Witness for C3: monotonicity applied at a concrete enrolled state. -/
theorem enrollment_once_and_monotone_w :
    (aggStep envSig cert0 stEnrolled "p").issuerEnrolled = true :=
  (enrollment_once_and_monotone envSig cert0 []).2.2 stEnrolled "p" rfl

/-- C4. After all of a tuple's paths are processed, the worker stores the
accumulated serial list keyed by the issuer's identity exactly when the
issuer was enrolled during that processing, and stores nothing when the
issuer was never enrolled. -/
theorem persist_iff_enrolled (env : CRLEnv) (cert : Cert) (issuerId : String)
    (ps : List String) :
    (aggWorkerOutput env cert issuerId ps
        = some (issuerId, (aggregateTuple env cert ps).serials.data)
      ↔ (aggregateTuple env cert ps).issuerEnrolled = true)
      ∧ ((aggregateTuple env cert ps).issuerEnrolled = false
          → aggWorkerOutput env cert issuerId ps = none) := by
  cases h : (aggregateTuple env cert ps).issuerEnrolled <;>
    simp [aggWorkerOutput, h]

/-- Witness for C4: an issuer with no paths is never enrolled and nothing
is persisted for it. -/
theorem persist_iff_enrolled_w :
    aggWorkerOutput envOk cert0 "X" [] = none :=
  (persist_iff_enrolled envOk cert0 "X" []).2 rfl

/-- C5. In a fetch iteration that makes its directory and does not abort,
the final cache path is appended to the issuer's path list exactly when a
final file exists whose age is at most `allowableAgeOfLocalCRL` (336
hours); a file strictly older is rejected; and a file aged exactly 336
hours is accepted. -/
theorem fetch_accept_iff (mkdirOk downloadOk certOk : Bool) (finalAge : Option Int)
    (paths : List String) (finalPath : String)
    (h1 : mkdirOk = true) (h2 : ¬(downloadOk = true ∧ certOk = false)) :
    (crlFetchStep mkdirOk downloadOk certOk finalAge paths finalPath
        = some (paths ++ [finalPath])
      ↔ ∃ age, finalAge = some age ∧ age ≤ allowableAgeOfLocalCRL)
      ∧ (∀ age, finalAge = some age → allowableAgeOfLocalCRL < age →
          crlFetchStep mkdirOk downloadOk certOk finalAge paths finalPath = some paths)
      ∧ crlFetchStep mkdirOk downloadOk certOk (some allowableAgeOfLocalCRL)
          paths finalPath = some (paths ++ [finalPath]) := by
  subst h1
  have hne : paths ≠ paths ++ [finalPath] := by simp
  refine ⟨?_, ?_, ?_⟩
  · cases finalAge with
    | none => simp [crlFetchStep, h2, hne]
    | some age =>
      by_cases hlt : allowableAgeOfLocalCRL < age
      · simp [crlFetchStep, h2, hlt, hne, not_le.mpr hlt]
      · simp [crlFetchStep, h2, hlt, not_lt.mp hlt]
  · intro age hage hlt
    subst hage
    simp [crlFetchStep, h2, hlt]
  · simp [crlFetchStep, h2]

/-- Witness for C5: the boundary case, a final file aged exactly 336
hours, with a failed download. -/
theorem fetch_accept_iff_w :
    crlFetchStep true false true (some allowableAgeOfLocalCRL) [] "f" = some ["f"] := by
  have h := fetch_accept_iff true false true (some allowableAgeOfLocalCRL) [] "f"
    rfl (by simp)
  simpa using h.2.2

/-- C7. Method `Merge` is commutative and idempotent with respect to map
contents: merging `B` into `A` yields the same issuer keys and the same
per-issuer URL sets as merging `A` into `B`, and merging `B` a second
time changes nothing — in particular merging the same URL twice for the
same issuer is a no-op. -/
theorem merge_comm_idem (A B : IssuerCrlMap) (i u : String) :
    hasIssuer (Merge A B) i = hasIssuer (Merge B A) i
      ∧ memUrl (Merge A B) i u = memUrl (Merge B A) i u
      ∧ hasIssuer (Merge (Merge A B) B) i = hasIssuer (Merge A B) i
      ∧ memUrl (Merge (Merge A B) B) i u = memUrl (Merge A B) i u := by
  refine ⟨?_, ?_, ?_, ?_⟩ <;>
    cases hA : A i <;> cases hB : B i <;>
      simp [Merge, hasIssuer, memUrl, hA, hB, emptyCrlSet] <;>
      split_ifs <;> simp_all

/-- A digest function standing in for `sha256.Sum256` in concrete runs:
all 32 digest bytes zero. -/
def sha0 : String → List Nat := fun _ => List.replicate 32 0

/-- A concrete URL: host `A`, path `/B.crl`, full form `u`. -/
def url0 : GoURL := ⟨"A", "/B.crl", "u"⟩

/-- C6 counterexample. At `url0` the code's filename differs from the
claim's formula: `makeFilenameFromUrl` joins host and base path segment
with a `-` separator (`fmt.Sprintf("%s-%s", ...)`), so it produces
`a-b-⟨hex⟩.crl` where the claimed separator-free concatenation gives
`ab-⟨hex⟩.crl`. -/
theorem filename_formula_cex :
    makeFilenameFromUrl sha0 url0 ≠ claimedFilenameFromUrl sha0 url0 := by
  decide

/-- C6 amended. For every digest function and URL, `makeFilenameFromUrl`
returns the lower-cased concatenation of host, a `-` separator, and the
base path segment, sanitized to the legal character class, a trailing
`.crl` stripped, then `-`, the first 8 digest bytes of the full URL
hex-encoded, and `.crl`. -/
theorem filename_formula_amended (sha256 : String → List Nat) (u : GoURL) :
    makeFilenameFromUrl sha256 u = amendedFilenameFromUrl sha256 u := rfl

/-- C8 counterexample. An issuer whose metadata yields no CRL URLs is
not excluded from the discovery worker's output map: `findCrlWorker`
still executes `issuerCrls[issuer.ID()] = crls`, so the issuer is a key
of the output map (bound to an empty URL set). -/
theorem discovery_excludes_empty_cex :
    hasIssuer (findCrlStep (fun _ => none) "X" []) "X" = true := rfl

/-- C8 amended. An issuer with an empty CRL URL set is kept in the
discovery output map but gains no URLs there; the download stage then
creates no work unit for an issuer none of whose URL strings parse, so
such an issuer never becomes enrolled. -/
theorem discovery_empty_never_enrolled (m : IssuerCrlMap) (X : String) :
    hasIssuer (findCrlStep m X []) X = true
      ∧ (∀ u, memUrl (findCrlStep m X []) X u = memUrl m X u)
      ∧ ∀ (uenv : UrlEnv) (cenv : CRLEnv) (certOf : String → Cert)
          (pathsFor : String → List GoURL → List String)
          (entries : List (String × List String)),
          (∀ us, (X, us) ∈ entries → parsedUrls uenv us = []) →
          X ∉ runEnrolled uenv cenv certOf pathsFor entries := by
  refine ⟨by simp [hasIssuer, findCrlStep], ?_, ?_⟩
  · intro u
    cases hm : m X <;> simp [memUrl, findCrlStep, hm, emptyCrlSet]
  · intro uenv cenv certOf pathsFor entries hemp hmem
    rw [runEnrolled, List.mem_filterMap] at hmem
    obtain ⟨a, ha, heq⟩ := hmem
    rw [downloadUnits, List.mem_filterMap] at ha
    obtain ⟨e, he, heq2⟩ := ha
    by_cases hpe : (parsedUrls uenv e.2).isEmpty
    · rw [if_pos hpe] at heq2
      exact Option.noConfusion heq2
    · rw [if_neg hpe] at heq2
      have ha1 : e.1 = a.1 := congrArg Prod.fst (Option.some_inj.mp heq2)
      have hX : e.1 = X := by
        by_cases hen :
            (aggregateTuple cenv (certOf a.1) (pathsFor a.1 a.2)).issuerEnrolled
        · rw [if_pos hen] at heq
          rw [ha1, Option.some_inj.mp heq]
        · rw [if_neg hen] at heq
          exact absurd heq (Option.noConfusion)
      have : parsedUrls uenv e.2 = [] := by
        apply hemp
        have : e = (X, e.2) := by
          rw [← hX]
        rw [← this]
        exact he
      rw [this] at hpe
      exact hpe rfl

/-- Witness for C8's amended claim at a concrete run: one issuer entry
whose single URL string does not parse. -/
theorem discovery_empty_never_enrolled_w :
    "X" ∉ runEnrolled uenvNone envOk (fun _ => cert0) (fun _ _ => [])
        [("X", ["u"])] := by
  refine (discovery_empty_never_enrolled (fun _ => none) "X").2.2
    uenvNone envOk (fun _ => cert0) (fun _ _ => []) [("X", ["u"])] ?_
  intro us _
  simp [parsedUrls, uenvNone]

/-- In `envBig`, the file at `"p1"` validates with `bigN` serials. -/
theorem processCRL_envBig_p1 :
    processCRL envBig "p1" cert0
      = ⟨(List.replicate bigN [0]).map NewSerialFromBytes, [], none⟩ := rfl

/-- In `envBig`, the file at `"p2"` validates with one serial. -/
theorem processCRL_envBig_p2 :
    processCRL envBig "p2" cert0 = ⟨[NewSerialFromBytes [1]], [], none⟩ := rfl

/-- A successful step from a not-yet-enrolled state whose capacity
suffices: enroll, append. -/
theorem aggStep_success_room (env : CRLEnv) (cert : Cert) (p : String)
    (s : List Serial) (w : List String) (st : AggState)
    (h : processCRL env p cert = ⟨s, w, none⟩) (hs : ¬s.length = 0)
    (hst : st.issuerEnrolled = false)
    (hcap : ¬(st.serials.cap < s.length + st.serialCount)) :
    aggStep env cert st p
      = ⟨true, st.enrollCalls + 1, st.serialCount + s.length, goAppend st.serials s⟩ := by
  simp [aggStep, h, hs, hst, hcap]

/-- A successful step from an enrolled state whose capacity is exceeded:
regrow through `goCopy` into the zero-length `newSerials`, then append. -/
theorem aggStep_success_regrow (env : CRLEnv) (cert : Cert) (p : String)
    (s : List Serial) (w : List String) (st : AggState)
    (h : processCRL env p cert = ⟨s, w, none⟩) (hs : ¬s.length = 0)
    (hst : st.issuerEnrolled = true)
    (hcap : st.serials.cap < s.length + st.serialCount) :
    aggStep env cert st p
      = ⟨true, st.enrollCalls, st.serialCount + s.length,
          goAppend (goCopy (goMake Serial (st.serialCount + s.length)) st.serials) s⟩ := by
  simp [aggStep, h, hs, hst, hcap]

/-- Go's `copy` into a freshly made zero-length slice copies nothing,
whatever the source holds. -/
theorem goCopy_into_empty (α : Type) (c : Nat) (src : GoSlice α) :
    goCopy (goMake α c) src = ⟨[], c⟩ := by
  simp [goCopy, goMake]

/-- Go's `append` to a freshly made empty slice whose capacity holds the
appended list keeps that capacity. -/
theorem goAppend_make_fits (α : Type) (c : Nat) (xs : List α) (h : xs.length ≤ c) :
    goAppend (goMake α c) xs = ⟨xs, c⟩ := by
  simp [goAppend, goMake, h]

/-- The first `envBig` step fills the accumulator to its capacity. -/
theorem aggStep_envBig_p1 :
    aggStep envBig cert0 aggInit "p1"
      = ⟨true, 1, bigN, ⟨(List.replicate bigN [0]).map NewSerialFromBytes, bigN⟩⟩ := by
  have hlen : ((List.replicate bigN ([0] : List Nat)).map NewSerialFromBytes).length
      = bigN := by
    rw [List.length_map, List.length_replicate]
  have hf3 : aggInit.serialCount
        + ((List.replicate bigN ([0] : List Nat)).map NewSerialFromBytes).length
      = bigN := by
    rw [hlen]
    show (0 : Nat) + bigN = bigN
    exact Nat.zero_add bigN
  have hf4 : goAppend aggInit.serials
        ((List.replicate bigN ([0] : List Nat)).map NewSerialFromBytes)
      = ⟨(List.replicate bigN [0]).map NewSerialFromBytes, bigN⟩ := by
    have e : aggInit.serials = goMake Serial (128 * 1024) := rfl
    rw [e, goAppend_make_fits Serial (128 * 1024)
      ((List.replicate bigN [0]).map NewSerialFromBytes)
      (by rw [hlen]; norm_num [bigN])]
    rfl
  rw [aggStep_success_room envBig cert0 "p1"
    ((List.replicate bigN [0]).map NewSerialFromBytes) [] aggInit
    processCRL_envBig_p1
    (by rw [hlen]; norm_num [bigN])
    rfl
    (by rw [hlen]; show ¬(128 * 1024 < bigN + 0); norm_num [bigN]),
    hf3, hf4]
  rfl

/-- The second `envBig` step exceeds the capacity; the regrown
accumulator starts from the zero-length `newSerials` (into which Go's
`copy` copied nothing), so it ends holding only the new serial. -/
theorem aggStep_envBig_p2 :
    aggStep envBig cert0
        ⟨true, 1, bigN, ⟨(List.replicate bigN [0]).map NewSerialFromBytes, bigN⟩⟩ "p2"
      = ⟨true, 1, bigN + 1, ⟨[NewSerialFromBytes [1]], bigN + 1⟩⟩ := by
  rw [aggStep_success_regrow envBig cert0 "p2" [NewSerialFromBytes [1]] []
    ⟨true, 1, bigN, ⟨(List.replicate bigN [0]).map NewSerialFromBytes, bigN⟩⟩
    processCRL_envBig_p2
    (by norm_num)
    rfl
    (by show bigN < 1 + bigN; omega),
    goCopy_into_empty]
  rfl

/-- C2 evaluated. In the spec's 3-serials-plus-1-serial scenario the
persisted list has all 4 serials (the initial 128Ki capacity is not
exceeded).  But when the capacity is exceeded — `bigN = 128*1024` serials
from the first file, then 1 from the second — the regrown accumulator
loses every earlier serial: `serialCount` reaches `bigN + 1` while the
persisted list holds only the single serial of the second file. -/
theorem regrow_loses_earlier_serials :
    aggWorkerOutput envSmall cert0 "X" ["pa", "pb"]
        = some ("X", [NewSerialFromBytes [1], NewSerialFromBytes [2],
            NewSerialFromBytes [3], NewSerialFromBytes [9]])
      ∧ (aggregateTuple envBig cert0 ["p1", "p2"]).serialCount = bigN + 1
      ∧ aggWorkerOutput envBig cert0 "X" ["p1", "p2"]
          = some ("X", [NewSerialFromBytes [1]]) := by
  have hfold : aggregateTuple envBig cert0 ["p1", "p2"]
      = aggStep envBig cert0 (aggStep envBig cert0 aggInit "p1") "p2" := rfl
  have hbig : aggregateTuple envBig cert0 ["p1", "p2"]
      = ⟨true, 1, bigN + 1, ⟨[NewSerialFromBytes [1]], bigN + 1⟩⟩ := by
    rw [hfold, aggStep_envBig_p1, aggStep_envBig_p2]
  refine ⟨rfl, by rw [hbig], ?_⟩
  rw [aggWorkerOutput, hbig]
  rfl

end Crlite
